import Mathlib

/-!
Shallow embedding of the svelte prebundling pipeline of this repository:
`packages/vite-plugin-svelte/src/utils/esbuild.ts` (timing stats, progress
throttling, package resolution, stats-table rendering, `compileSvelte`) and
`packages/vite-plugin-svelte/src/preprocess.js` (the `vitePreprocess` script
and style hooks).

Modelling choices: machine floats (`performance.now()` times, durations) are
modelled as rationals; JS strings as Lean strings (all values involved are
ASCII); a JS `throw` as an `Option`/`Except` failure; the external
collaborators (`findClosestPkgJsonPath`, `readFileSync` + JSON parse of a
manifest, `transformWithEsbuild`, `preprocessCSS`, `resolveConfig`,
`toESBuildError`, and the svelte `compile`/`preprocess` functions) appear as
function parameters, since the source treats them as opaque imports.
-/

-- Batteries marks the `Rat` arithmetic operations `[irreducible]`, which
-- blocks evaluation of the model on concrete inputs inside proofs; restore
-- the default reducibility for this file so that concrete stats tables can
-- be settled by `decide` (the kernel computes them either way).
attribute [local semireducible] Rat.add Rat.sub Rat.mul Rat.inv

/-- JS `s.padEnd(n, ' ')` for ASCII strings: appends spaces up to length `n`,
returns `s` unchanged when `s.length ≥ n`. -/
def padEnd (s : String) (n : Nat) : String :=
  s ++ String.mk (List.replicate (n - s.length) ' ')

/-- JS `s.padStart(n, ' ')` for ASCII strings: prepends spaces up to length
`n`, returns `s` unchanged when `s.length ≥ n`. -/
def padStart (s : String) (n : Nat) : String :=
  String.mk (List.replicate (n - s.length) ' ') ++ s

/-- Left-pads a decimal digit string with zeros up to `d` digits (used to
print the fractional part of a JS `toFixed` result). -/
def zeroPadLeft (s : String) (d : Nat) : String :=
  String.mk (List.replicate (d - s.length) '0') ++ s

/-- JS `Number.prototype.toFixed(d)` rounding for a nonnegative rational:
the integer nearest to `q * 10^d`, ties rounded up (the ECMAScript spec picks
the larger candidate), i.e. `⌊q * 10^d + 1/2⌋`, computed on the numerator and
denominator directly as `⌊(2*num*10^d + den) / (2*den)⌋`. -/
def toFixedRound (q : ℚ) (d : Nat) : Int :=
  let p : Int := ((10 ^ d : Nat) : Int)
  (2 * q.num * p + (q.den : Int)).fdiv (2 * (q.den : Int))

/-- JS `q.toFixed(d)` for a nonnegative rational `q`: decimal string with
exactly `d` fractional digits. -/
def toFixedStr (q : ℚ) (d : Nat) : String :=
  let m := toFixedRound q d
  let base : Int := ((10 ^ d : Nat) : Int)
  let ip := m.ediv base
  let fp := (m.emod base).toNat
  if d = 0 then toString ip else toString ip ++ "." ++ zeroPadLeft (toString fp) d

/-- `humanDuration` of `esbuild.ts` (lines 39-42): values below 100 are
rendered as `N.Nms`, others as seconds with two decimals. -/
def humanDuration (n : ℚ) : String :=
  if n < 100 then toFixedStr n 1 ++ "ms" else toFixedStr (n / 1000) 2 ++ "s"

/-- `TimeStamp` record of `esbuild.ts` (lines 18-21). -/
structure TimeStamp where
  event : String
  ts : ℚ
deriving DecidableEq, Repr

/-- `FileStat` record of `esbuild.ts` (lines 22-26); `packagename` is the
optional field filled in by `logStats` package resolution. -/
structure FileStat where
  filename : String
  packagename : Option String := none
  timestamps : List TimeStamp
deriving DecidableEq, Repr

/-- `PackageStats` record of `esbuild.ts` (lines 27-31).  `name` is an
`Option` because it is copied from `FileStat.packagename`, which may be
`undefined` in JS. -/
structure PackageStats where
  name : Option String
  count : Nat
  compileTime : ℚ
deriving DecidableEq, Repr

/-- JS `Array.prototype.findIndex`: index of the first matching timestamp, or
`-1` when none matches. -/
def tsIndex (timestamps : List TimeStamp) (event : String) : Int :=
  match timestamps.findIdx? (fun t => t.event == event) with
  | some i => (i : Int)
  | none => -1

/-- JS `timestamps[i].ts`: `none` models the `TypeError` thrown when the
index is out of range (in particular `-1`, the missing-event index). -/
def tsAt (timestamps : List TimeStamp) (i : Int) : Option ℚ :=
  if i < 0 then none else (timestamps.get? i.toNat).map (fun t => t.ts)

/-- `duration` of `esbuild.ts` (lines 33-37): time at the first `toEvent`
minus time at the first `fromEvent` (or at the entry immediately preceding
`toEvent` when `fromEvent` is omitted); `none` models the throw on a missing
event or an out-of-range index. -/
def duration (timestamps : List TimeStamp) (toEvent : String)
    (fromEvent : Option String) : Option ℚ :=
  let toIndex := tsIndex timestamps toEvent
  let fromIndex :=
    match fromEvent with
    | some f => tsIndex timestamps f
    | none => toIndex - 1
  match tsAt timestamps toIndex, tsAt timestamps fromIndex with
  | some a, some b => some (a - b)
  | _, _ => none

/-- Result of `compiled.js.map.toUrl()` in `compileSvelte`: the collaborator
method is modelled by the string it returns. -/
structure JsMapOut where
  toUrl : String
deriving DecidableEq, Repr

/-- The `js` field of a svelte `compile` result, as used by `compileSvelte`. -/
structure JsOut where
  code : String
  map : JsMapOut
deriving DecidableEq, Repr

/-- The svelte `compile` result shape used by `compileSvelte` (`Compiled`). -/
structure Compiled where
  js : JsOut
deriving DecidableEq, Repr

/-- `compileSvelte` of `esbuild.ts` (lines 189-242).  The svelte `preprocess`
and `compile` collaborators are parameters (`Except` models their throws); the
option plumbing (css flag selection, `dynamicCompileOptions` merge) only
shapes the options handed to `compileFn` and is folded into that parameter.
`takeTimestamp` pushes onto a fresh array; the clock values it reads are the
parameters `tCompileStart`/`tCompiled`.  On success the result carries the
returned string (line 241) and the recorded timestamp sequence. -/
def compileSvelte (preprocessFn : Option (String → Except String String))
    (compileFn : String → Except String Compiled)
    (filename code : String) (tCompileStart tCompiled : ℚ) :
    Except String (String × List TimeStamp) :=
  let preprocessedCode : Except String String :=
    match preprocessFn with
    | none => .ok code
    | some pf =>
      match pf code with
      | .ok pcode => .ok pcode
      | .error msg =>
        .error ("Error while preprocessing " ++ filename ++
          (if msg = "" then "" else " - " ++ msg))
  match preprocessedCode with
  | .error e => .error e
  | .ok finalCode =>
    match compileFn finalCode with
    | .error e => .error e
    | .ok compiled =>
      .ok (compiled.js.code ++ "//# sourceMappingURL=" ++ compiled.js.map.toUrl,
        [⟨"compileStart", tCompileStart⟩, ⟨"compiled", tCompiled⟩])

/-- The `build.onLoad` callback body of `esbuildSveltePlugin` (`esbuild.ts`
lines 161-175) after the file read: on compile success the new `FileStat` is
pushed onto the shared `stats` list and the contents returned; on a throw the
`toESBuildError` collaborator formats the exception and an error result is
returned instead of code. -/
def onFileLoad {ε : Type} (toESBuildError : String → ε) (filename : String)
    (compileResult : Except String (String × List TimeStamp))
    (stats : List FileStat) : Except ε String × List FileStat :=
  match compileResult with
  | .ok (contents, timestamps) =>
    (.ok contents, stats ++ [{ filename := filename, timestamps := timestamps }])
  | .error e => (.error (toESBuildError e), stats)

/-- `progressDelay` of `esbuildSveltePlugin` (line 55). -/
def progressDelay : ℚ := 2000

/-- `progressThrottle` of `esbuildSveltePlugin` (line 56). -/
def progressThrottle : ℚ := 200

/-- The emission condition of `logProgress` (`esbuild.ts` lines 58-64):
`done || now - (lastProgressLog || bundleStart) > (lastProgressLog ?
progressThrottle : progressDelay)`.  JS numeric truthiness of
`lastProgressLog` is `lastProgressLog ≠ 0`. -/
def shouldLogProgress (done : Bool) (now bundleStart lastProgressLog : ℚ) : Bool :=
  done ||
    decide (now - (if lastProgressLog = 0 then bundleStart else lastProgressLog) >
      (if lastProgressLog = 0 then progressDelay else progressThrottle))

/-- `supportedStyleLangs` of `preprocess.js` (line 4). -/
def supportedStyleLangs : List String :=
  ["css", "less", "sass", "scss", "styl", "stylus", "postcss", "sss"]

/-- `supportedScriptLangs` of `preprocess.js` (line 5). -/
def supportedScriptLangs : List String := ["ts"]

/-- JS `langs.includes(attributes.lang)` where the `lang` attribute may be
absent (`undefined`): an absent tag is never a member. -/
def langIncludes (langs : List String) (lang : Option String) : Bool :=
  match lang with
  | some s => langs.contains s
  | none => false

/-- A preprocessor block as handed to the `script`/`style` hooks: the `lang`
attribute (absent when the tag has none), the block content and filename. -/
structure PreprocessBlock where
  lang : Option String
  content : String
  filename : String
deriving DecidableEq, Repr

/-- Result shape of `transformWithEsbuild`/the style transform as returned by
the hooks (`code`, optional `map`; maps are opaque strings here). -/
structure TransformResult where
  code : String
  map : Option String
deriving DecidableEq, Repr

/-- The `script` hook returned by `viteScript` (`preprocess.js` lines 32-58):
an unsupported or absent `lang` yields no transformation (`none`); a
supported one returns the `transformWithEsbuild` collaborator's result. -/
def viteScriptHook (transformWithEsbuild : String → String → TransformResult)
    (block : PreprocessBlock) : Option TransformResult :=
  if langIncludes supportedScriptLangs block.lang then
    some (transformWithEsbuild block.content block.filename)
  else
    none

/-- A vite config value as seen by `viteStyle`: `inlineConfig` records the
truthiness of the `inlineConfig` field (the structural mark of an
already-resolved config), `data` stands for the rest of the object. -/
structure ConfigVal where
  inlineConfig : Bool
  data : Nat
deriving DecidableEq, Repr

/-- `isResolvedConfig` of `preprocess.js` (lines 123-125): truthiness of the
`inlineConfig` field. -/
def isResolvedConfig (config : ConfigVal) : Bool :=
  config.inlineConfig

/-- Mutable closure state of one `viteStyle` instance: the memoized
`transform` (identified by the resolved config it was built from by
`getCssTransformFn`) and the `style.__resolvedConfig` property (`none`
models JS `null`/absent, i.e. falsy). -/
structure ViteStyleState where
  transform : Option ConfigVal
  resolvedConfigField : Option ConfigVal
deriving DecidableEq, Repr

/-- State of a fresh `viteStyle` instance: no transform resolved yet, and
`style.__resolvedConfig = null` (line 101 of `preprocess.js`). -/
def initViteStyleState : ViteStyleState :=
  { transform := none, resolvedConfigField := none }

/-- The config chosen on first use by the `style` hook (`preprocess.js` lines
71-86): the injected `style.__resolvedConfig` when truthy, else the
constructor `config` itself when `isResolvedConfig`, else
`resolveConfig(config, ...)` (collaborator parameter `resolveFn`). -/
def chooseResolvedConfig (resolveFn : ConfigVal → ConfigVal)
    (resolvedConfigField : Option ConfigVal) (config : ConfigVal) : ConfigVal :=
  match resolvedConfigField with
  | some rc => rc
  | none => if isResolvedConfig config then config else resolveFn config

/-- One call of the `style` hook of `viteStyle` (`preprocess.js` lines
68-99) on a block with the given `lang`: unsupported langs yield no
transformation and leave the closure state unchanged; otherwise the memoized
transform is used, being resolved first if this is the first supported block.
The returned `ConfigVal` identifies the transform (i.e. the resolved config
bound by `getCssTransformFn`) that produced this block's result. -/
def viteStyleStep (resolveFn : ConfigVal → ConfigVal) (config : ConfigVal)
    (st : ViteStyleState) (lang : Option String) :
    Option ConfigVal × ViteStyleState :=
  if langIncludes supportedStyleLangs lang then
    match st.transform with
    | some t => (some t, st)
    | none =>
      let t := chooseResolvedConfig resolveFn st.resolvedConfigField config
      (some t, { st with transform := some t })
  else
    (none, st)

/-- External history of one `viteStyle` instance: a style-block call, or an
assignment to `style.__resolvedConfig` by the embedding controller. -/
inductive StyleEvent where
  | block (lang : Option String)
  | setResolvedConfig (c : ConfigVal)
deriving DecidableEq, Repr

/-- Effect of one `StyleEvent` on the closure state. -/
def styleEventStep (resolveFn : ConfigVal → ConfigVal) (config : ConfigVal)
    (st : ViteStyleState) (ev : StyleEvent) : ViteStyleState :=
  match ev with
  | .setResolvedConfig c => { st with resolvedConfigField := some c }
  | .block lang => (viteStyleStep resolveFn config st lang).2

/-- Folds a sequence of events over the closure state. -/
def styleProcess (resolveFn : ConfigVal → ConfigVal) (config : ConfigVal)
    (st : ViteStyleState) (evs : List StyleEvent) : ViteStyleState :=
  evs.foldl (styleEventStep resolveFn config) st

/-- A cache entry of the `packages` array in `logStats` (`esbuild.ts` line
80): the manifest's declared `name` and the manifest's directory `path`
(i.e. the `package.json` path with the trailing `package.json` stripped). -/
structure PkgEntry where
  name : String
  path : String
deriving DecidableEq, Repr

/-- Result of the package-resolution phase of `logStats`: the stats with
`packagename` filled in, the final `packages` cache, and the number of
`findClosestPkgJsonPath` lookups performed. -/
structure ResolveOutcome where
  stats : List FileStat
  packages : List PkgEntry
  lookupCount : Nat
deriving DecidableEq, Repr

/-- The continuation of one per-stat closure of the resolution phase of
`logStats` (`esbuild.ts` lines 82-96), given the outcome `sp.2` of its cache
probe: a cache hit sets `packagename` from the cached entry; a miss runs the
`findPkg` lookup, pushing the discovered entry onto the cache and counting
the lookup (a failed lookup is still a performed lookup). -/
def resolveStep (findPkg : String → Option PkgEntry) (acc : ResolveOutcome)
    (sp : FileStat × Option PkgEntry) : ResolveOutcome :=
  match sp.2 with
  | some pkg =>
    { acc with stats := acc.stats ++ [{ sp.1 with packagename := some pkg.name }] }
  | none =>
    match findPkg sp.1.filename with
    | some pkg =>
      { stats := acc.stats ++ [{ sp.1 with packagename := some pkg.name }],
        packages := acc.packages ++ [pkg],
        lookupCount := acc.lookupCount + 1 }
    | none =>
      { acc with stats := acc.stats ++ [sp.1],
                 lookupCount := acc.lookupCount + 1 }

/-- The package-resolution phase of `logStats` (`esbuild.ts` lines 80-97)
under the actual `Promise.all` interleaving.  Each per-stat async closure
first runs its synchronous part — the cache probe
`packages.find((p) => stat.filename.startsWith(p.path))` — and only then
suspends on `await findClosestPkgJsonPath(...)`; since `stats.map` creates
all closures synchronously before any lookup promise can resolve, every
probe sees the cache as it was when the phase started (`packages0`).  The
lookup continuations (`resolveStep`) then run, each pushing its discovered
entry (there is no second cache probe after the `await`).  `findPkg` folds
together the `findClosestPkgJsonPath` collaborator, the
trailing-`package.json` strip and the manifest read of the `name` field; it
returns `none` on a lookup miss. -/
def resolveStatsRun (findPkg : String → Option PkgEntry)
    (packages0 : List PkgEntry) (stats : List FileStat) : ResolveOutcome :=
  let checked := stats.map
    (fun stat => (stat, packages0.find? (fun p => stat.filename.startsWith p.path)))
  checked.foldl (resolveStep findPkg)
    { stats := [], packages := packages0, lookupCount := 0 }

/-- The resolution phase as `logStats` runs it: the `packages` cache is a
fresh empty array local to each `logStats` call (`esbuild.ts` line 80). -/
def logStatsResolve (findPkg : String → Option PkgEntry)
    (stats : List FileStat) : ResolveOutcome :=
  resolveStatsRun findPkg [] stats

/-- The JS object key under which a stat is grouped: `grouped[stat.packagename]`
coerces the key to a string, so an `undefined` package name groups under the
string key `"undefined"`. -/
def groupKey (p : Option String) : String :=
  match p with
  | some s => s
  | none => "undefined"

/-- Grouping key of one stat. -/
def statKey (s : FileStat) : String := groupKey s.packagename

/-- Lookup of a group by its JS object key. -/
def findGroup (gs : List PackageStats) (key : String) : Option PackageStats :=
  gs.find? (fun g => groupKey g.name == key)

/-- One step of the grouping loop of `logStats` (`esbuild.ts` lines 100-111):
the stat's group is created on first sight (preserving JS object insertion
order, with `name` copied from `stat.packagename`), then `count` is
incremented and `duration(stat.timestamps, 'compiled')` added to
`compileTime`; a `duration` throw aborts the whole `logStats` call (`none`). -/
def addStat (grouped : List PackageStats) (stat : FileStat) :
    Option (List PackageStats) :=
  match duration stat.timestamps "compiled" none with
  | none => none
  | some d =>
    let key := statKey stat
    if (findGroup grouped key).isSome then
      some (grouped.map (fun g =>
        if groupKey g.name == key then
          { g with count := g.count + 1, compileTime := g.compileTime + d }
        else g))
    else
      some (grouped ++ [{ name := stat.packagename, count := 1, compileTime := d }])

/-- The grouping loop of `logStats` over all stats. -/
def groupStats (stats : List FileStat) : Option (List PackageStats) :=
  stats.foldlM addStat []

/-- The sort order of `groups.sort((a, b) => b.count - a.count)`: descending
file count. -/
def countGe (a b : PackageStats) : Prop := b.count ≤ a.count

instance : DecidableRel countGe :=
  fun a b => inferInstanceAs (Decidable (b.count ≤ a.count))

instance : IsTotal PackageStats countGe :=
  ⟨fun a b => (Nat.le_total b.count a.count).imp id id⟩

instance : IsTrans PackageStats countGe :=
  ⟨fun _ _ _ hab hbc => le_trans hbc hab⟩

/-- `groups.sort((a, b) => b.count - a.count)` (`esbuild.ts` line 114): JS
`Array.prototype.sort` is stable, and a stable sort under this comparator is
insertion sort under `countGe`. -/
def sortGroups (gs : List PackageStats) : List PackageStats :=
  List.insertionSort countGe gs

/-- One data row of `statLines` (`esbuild.ts` lines 115-124).  Cells are
`Option String` because `pkgStats.name` may be `undefined` in JS; the later
rendering steps throw on such a cell. -/
def statLine (g : PackageStats) : List (Option String) :=
  [g.name, some (toString g.count), some (humanDuration g.compileTime),
    some (humanDuration (g.compileTime / (g.count : ℚ)))]

/-- The header row unshifted at `esbuild.ts` line 125. -/
def headerLine : List (Option String) :=
  [some "library", some "files", some "time", some "avg"]

/-- `statLines` as rendered by `logStats`: header first, then one row per
group in sorted order. -/
def logStatsLines (groups : List PackageStats) : List (List (Option String)) :=
  headerLine :: groups.map statLine

/-- Inner loop of the `columnWidths` reduce (`esbuild.ts` lines 128-133):
walks the row left to right; `widths[i] < cell.length` throws (`none`) when
`cell` is `undefined`, silently skips when `i` is outside `widths` (JS
`undefined < n` is false), and otherwise records the larger width. -/
def updateWidthsGo (widths : List Nat) (i : Nat) (row : List (Option String)) :
    Option (List Nat) :=
  match row with
  | [] => some widths
  | none :: _ => none
  | some cell :: rest =>
    let widths' :=
      match widths.get? i with
      | some w => if w < cell.length then widths.set i cell.length else widths
      | none => widths
    updateWidthsGo widths' (i + 1) rest

/-- `columnWidths` of `logStats` (`esbuild.ts` lines 126-137): a reduce over
all rows starting from `statLines[0].map(() => 0)`. -/
def columnWidths (statLines : List (List (Option String))) : Option (List Nat) :=
  match statLines with
  | [] => none
  | first :: _ =>
    statLines.foldlM (fun w row => updateWidthsGo w 0 row)
      (first.map (fun _ => 0))

/-- Per-cell padding of the table render (`esbuild.ts` lines 142-148): the
first column uses `padEnd`, every other column `padStart`; a missing width
(JS `columnWidths[i]` = `undefined`) pads to 0, i.e. leaves the cell
unchanged; an `undefined` cell throws. -/
def renderCellsGo (widths : List Nat) (i : Nat) (row : List (Option String)) :
    Option (List String) :=
  match row with
  | [] => some []
  | none :: _ => none
  | some cell :: rest =>
    let w := (widths.get? i).getD 0
    let padded := if i = 0 then padEnd cell w else padStart cell w
    (renderCellsGo widths (i + 1) rest).map (fun tail => padded :: tail)

/-- One rendered table row: padded cells joined by a single tab
(`esbuild.ts` line 149). -/
def renderRow (widths : List Nat) (row : List (Option String)) : Option String :=
  (renderCellsGo widths 0 row).map (String.intercalate "\t")

/-- The table render of `logStats` (`esbuild.ts` lines 139-151): every row
rendered with the shared column widths, rows joined by newlines. -/
def renderStatsTable (statLines : List (List (Option String))) : Option String :=
  match columnWidths statLines with
  | none => none
  | some widths =>
    (statLines.mapM (renderRow widths)).map (String.intercalate "\n")

/-- The grouping/rendering tail of `logStats` (`esbuild.ts` lines 99-152),
taking the stats after package resolution and producing the logged table
string; `none` models a throw anywhere in the chain. -/
def logStatsTable (stats : List FileStat) : Option String :=
  match groupStats stats with
  | none => none
  | some grouped => renderStatsTable (logStatsLines (sortGroups grouped))

/-- All of `logStats` (`esbuild.ts` lines 78-153) except the final
`log.info` call: package resolution followed by grouping and rendering. -/
def fullLogStats (findPkg : String → Option PkgEntry)
    (stats : List FileStat) : Option String :=
  logStatsTable (logStatsResolve findPkg stats).stats

/-- Number of stats grouped under a given JS object key (specification-side
count used to state the grouping claim). -/
def keyCount (stats : List FileStat) (key : String) : Nat :=
  (stats.filter (fun s => statKey s == key)).length

/-- Sum of the per-file compile durations of the stats grouped under a given
key, with `d` naming each stat's duration (specification-side sum used to
state the grouping claim). -/
def keySum (stats : List FileStat) (d : FileStat → ℚ) (key : String) : ℚ :=
  ((stats.filter (fun s => statKey s == key)).map d).sum

/-- Count already recorded for a key in a grouping accumulator (0 when the
key has no group yet). -/
def baseCount (acc : List PackageStats) (key : String) : Nat :=
  match findGroup acc key with
  | some g => g.count
  | none => 0

/-- Compile time already recorded for a key in a grouping accumulator. -/
def baseTime (acc : List PackageStats) (key : String) : ℚ :=
  match findGroup acc key with
  | some g => g.compileTime
  | none => 0

/-- The JS object keys of a grouping accumulator, in insertion order. -/
def groupKeys (gs : List PackageStats) : List String :=
  gs.map (fun g => groupKey g.name)

/-- A run of `n` spaces. -/
def spaces (n : Nat) : String := String.mk (List.replicate n ' ')

/-- The string content of cell `i` of a table row (`""` for a cell that is
absent or `undefined`; only used on rows whose cells are present). -/
def cellStr (row : List (Option String)) (i : Nat) : String :=
  ((row.get? i).getD none).getD ""

/-- The widest content length of column `i` over all rows
(specification-side description of what `columnWidths` computes). -/
def widestIn (rows : List (List (Option String))) (i : Nat) : Nat :=
  rows.foldl (fun w row => max w (cellStr row i).length) 0

/-- Formalisation of the padding rule as the claim states it (first column
left-padded with `padStart`, the other columns right-padded with `padEnd`),
for comparison against the source's `renderCellsGo`. -/
def renderCellsClaimGo (widths : List Nat) (i : Nat) (row : List (Option String)) :
    Option (List String) :=
  match row with
  | [] => some []
  | none :: _ => none
  | some cell :: rest =>
    let w := (widths.get? i).getD 0
    let padded := if i = 0 then padStart cell w else padEnd cell w
    (renderCellsClaimGo widths (i + 1) rest).map (fun tail => padded :: tail)

/-- Table render under the claim's padding rule. -/
def renderStatsTableClaim (statLines : List (List (Option String))) : Option String :=
  match columnWidths statLines with
  | none => none
  | some widths =>
    (statLines.mapM (fun row =>
      (renderCellsClaimGo widths 0 row).map (String.intercalate "\t"))).map
      (String.intercalate "\n")

/-- `logStatsTable` with the claim's padding rule in place of the source's. -/
def logStatsTableClaim (stats : List FileStat) : Option String :=
  match groupStats stats with
  | none => none
  | some grouped => renderStatsTableClaim (logStatsLines (sortGroups grouped))

/-- Concrete stat of a file whose nearest-manifest lookup misses. -/
def statMiss : FileStat :=
  { filename := "/x/a.svelte",
    timestamps := [⟨"compileStart", 0⟩, ⟨"compiled", 5⟩] }

/-- Concrete stat resolved to package `a` (compile duration 5ms). -/
def statA : FileStat :=
  { filename := "/p/a.svelte", packagename := some "a",
    timestamps := [⟨"compileStart", 0⟩, ⟨"compiled", 5⟩] }

/-- Concrete stat resolved to package `bb` (compile duration 5ms). -/
def statB1 : FileStat :=
  { filename := "/p/b.svelte", packagename := some "bb",
    timestamps := [⟨"compileStart", 2⟩, ⟨"compiled", 7⟩] }

/-- Second concrete stat resolved to package `bb` (compile duration 5ms). -/
def statB2 : FileStat :=
  { filename := "/p/c.svelte", packagename := some "bb",
    timestamps := [⟨"compileStart", 1⟩, ⟨"compiled", 6⟩] }

/-- Three concrete files across two packages. -/
def exampleStats : List FileStat := [statA, statB1, statB2]

/-- The duration of each concrete example stat. -/
def exampleDur : FileStat → ℚ :=
  fun s => (duration s.timestamps "compiled" none).getD 0

/-- The groups `groupStats` produces for `exampleStats` (insertion order). -/
def exampleGroups : List PackageStats :=
  [⟨some "a", 1, 5⟩, ⟨some "bb", 2, 10⟩]

/-- `exampleGroups` after the descending-count sort. -/
def exampleGroupsSorted : List PackageStats :=
  [⟨some "bb", 2, 10⟩, ⟨some "a", 1, 5⟩]

/-- A manifest lookup that finds `/p/package.json` (package `p`) for every
file: both example files live under the same package directory. -/
def examplePkgLookup : String → Option PkgEntry :=
  fun _ => some ⟨"p", "/p/"⟩

/-- A manifest lookup that always misses. -/
def missPkgLookup : String → Option PkgEntry := fun _ => none

/-- A concrete svelte `compile` collaborator returning code `"A"` and a map
whose `toUrl()` is `"B"`. -/
def exampleCompileFn : String → Except String Compiled :=
  fun _ => .ok ⟨⟨"A", ⟨"B"⟩⟩⟩

/-- A concrete svelte `compile` collaborator that throws `"boom"`. -/
def throwingCompileFn : String → Except String Compiled :=
  fun _ => .error "boom"

/-! ## Helper lemmas -/

theorem findGroup_key {gs : List PackageStats} {k : String} {g : PackageStats}
    (h : findGroup gs k = some g) : groupKey g.name = k := by
  have hp := List.find?_some h
  exact eq_of_beq hp

theorem findGroup_mem {gs : List PackageStats} {k : String} {g : PackageStats}
    (h : findGroup gs k = some g) : g ∈ gs :=
  List.mem_of_find?_eq_some h

theorem find?_map_pred {α : Type} (f : α → α) (p : α → Bool) (l : List α)
    (hf : ∀ x, p (f x) = p x) : (l.map f).find? p = (l.find? p).map f := by
  induction l with
  | nil => rfl
  | cons x xs ih =>
    simp only [List.map_cons, List.find?_cons, hf x]
    cases hp : p x
    · simpa [hp] using ih
    · simp [hp]

theorem findGroup_self (gs : List PackageStats) (hnd : (groupKeys gs).Nodup) :
    ∀ g ∈ gs, findGroup gs (groupKey g.name) = some g := by
  induction gs with
  | nil => simp
  | cons x xs ih =>
    have hnc : (∀ y ∈ xs, ¬ groupKey y.name = groupKey x.name) ∧ (groupKeys xs).Nodup := by
      simpa [groupKeys] using hnd
    intro g hg
    rcases List.mem_cons.mp hg with hgx | hgxs
    · subst hgx; simp [findGroup, List.find?_cons]
    · have hne : (groupKey x.name == groupKey g.name) = false := by
        apply beq_eq_false_iff_ne.mpr
        intro he
        exact hnc.1 g hgxs he.symm
      have := ih hnc.2 g hgxs
      simpa [findGroup, List.find?_cons, hne] using this

theorem keyCount_cons_pos {s : FileStat} {k : String} (rest : List FileStat)
    (h : statKey s = k) : keyCount (s :: rest) k = keyCount rest k + 1 := by
  rw [keyCount, keyCount, List.filter_cons, if_pos (by simpa using h)]
  simp

theorem keyCount_cons_neg {s : FileStat} {k : String} (rest : List FileStat)
    (h : ¬ statKey s = k) : keyCount (s :: rest) k = keyCount rest k := by
  rw [keyCount, keyCount, List.filter_cons, if_neg (by simpa using h)]

theorem keySum_cons_pos {s : FileStat} {k : String} (rest : List FileStat)
    (d : FileStat → ℚ) (h : statKey s = k) :
    keySum (s :: rest) d k = d s + keySum rest d k := by
  rw [keySum, keySum, List.filter_cons, if_pos (by simpa using h)]
  simp

theorem keySum_cons_neg {s : FileStat} {k : String} (rest : List FileStat)
    (d : FileStat → ℚ) (h : ¬ statKey s = k) :
    keySum (s :: rest) d k = keySum rest d k := by
  rw [keySum, keySum, List.filter_cons, if_neg (by simpa using h)]

/-- Invariant of the grouping loop of `logStats`: starting from an
accumulator with distinct keys, a successful fold keeps the keys distinct,
produces exactly the keys of the accumulator and of the processed stats, and
each resulting group's `count`/`compileTime` add the matching stats' number
and durations (`d` names the per-stat duration) to the accumulator's. -/
theorem groupStats_fold_props (d : FileStat → ℚ) :
    ∀ (stats : List FileStat) (acc gs : List PackageStats),
      (∀ s ∈ stats, duration s.timestamps "compiled" none = some (d s)) →
      (groupKeys acc).Nodup →
      List.foldlM addStat acc stats = some gs →
      ((groupKeys gs).Nodup ∧
       (∀ k, k ∈ groupKeys gs ↔ (k ∈ groupKeys acc ∨ k ∈ stats.map statKey)) ∧
       (∀ k g, findGroup gs k = some g →
          groupKey g.name = k ∧
          g.count = baseCount acc k + keyCount stats k ∧
          g.compileTime = baseTime acc k + keySum stats d k)) := by
  intro stats
  induction stats with
  | nil =>
    intro acc gs _ hnd hfold
    have hacc : acc = gs := by simpa using hfold
    subst hacc
    refine ⟨hnd, by simp, ?_⟩
    intro k g hfg
    have hk : groupKey g.name = k := findGroup_key hfg
    refine ⟨hk, ?_, ?_⟩
    · simp [baseCount, keyCount, hfg]
    · simp [baseTime, keySum, hfg]
  | cons s rest ih =>
    intro acc gs hdur hnd hfold
    have hds : duration s.timestamps "compiled" none = some (d s) :=
      hdur s (List.mem_cons_self s rest)
    have hdrest : ∀ x ∈ rest, duration x.timestamps "compiled" none = some (d x) :=
      fun x hx => hdur x (List.mem_cons_of_mem s hx)
    rw [List.foldlM_cons] at hfold
    cases hacc : addStat acc s with
    | none => rw [hacc] at hfold; simp at hfold
    | some acc1 =>
      rw [hacc] at hfold
      have hfold1 : List.foldlM addStat acc1 rest = some gs := by simpa using hfold
      simp only [addStat, hds] at hacc
      by_cases hhit : (findGroup acc (statKey s)).isSome = true
      · -- the stat's key already has a group: that group is updated in place
        obtain ⟨g0, hg0⟩ := Option.isSome_iff_exists.mp hhit
        have hg0key : groupKey g0.name = statKey s := findGroup_key hg0
        rw [if_pos hhit] at hacc
        have hacc1 : acc1 = acc.map (fun (g : PackageStats) =>
            if groupKey g.name == statKey s then
              { g with count := g.count + 1, compileTime := g.compileTime + d s }
            else g) := (Option.some_inj.mp hacc).symm
        set updF := fun (g : PackageStats) =>
            if groupKey g.name == statKey s then
              { g with count := g.count + 1, compileTime := g.compileTime + d s }
            else g with hupdF
        have hname : ∀ g, (updF g).name = g.name := by
          intro g; rw [hupdF]; dsimp only; split <;> rfl
        have hkeys1 : groupKeys acc1 = groupKeys acc := by
          rw [hacc1, groupKeys, groupKeys, List.map_map]
          apply List.map_congr_left
          intro g _
          simp [hname g]
        have hfind1 : ∀ k, findGroup acc1 k = (findGroup acc k).map updF := by
          intro k
          rw [hacc1, findGroup, findGroup]
          apply find?_map_pred
          intro x
          rw [hname x]
        have hkeymem : statKey s ∈ groupKeys acc :=
          hg0key ▸ List.mem_map.mpr ⟨g0, findGroup_mem hg0, rfl⟩
        have IH := ih acc1 gs hdrest (hkeys1 ▸ hnd) hfold1
        refine ⟨IH.1, ?_, ?_⟩
        · intro k
          rw [IH.2.1 k, hkeys1]
          simp only [List.map_cons, List.mem_cons]
          constructor
          · rintro (h | h)
            · exact Or.inl h
            · exact Or.inr (Or.inr h)
          · rintro (h | h | h)
            · exact Or.inl h
            · exact Or.inl (h ▸ hkeymem)
            · exact Or.inr h
        · intro k g hfg
          obtain ⟨hk, hcnt, htime⟩ := IH.2.2 k g hfg
          by_cases hkk : k = statKey s
          · have hupd : updF g0 =
                { g0 with count := g0.count + 1, compileTime := g0.compileTime + d s } := by
              rw [hupdF]
              dsimp only
              rw [if_pos (beq_iff_eq.mpr hg0key)]
            have hb1 : baseCount acc1 k = baseCount acc k + 1 := by
              rw [hkk, baseCount, baseCount, hfind1 (statKey s), hg0]
              simp [hupd]
            have hb2 : baseTime acc1 k = baseTime acc k + d s := by
              rw [hkk, baseTime, baseTime, hfind1 (statKey s), hg0]
              simp [hupd]
            refine ⟨hk, ?_, ?_⟩
            · rw [hcnt, hb1, keyCount_cons_pos rest hkk.symm]
              omega
            · rw [htime, hb2, keySum_cons_pos rest d hkk.symm]
              ring
          · have hpres : ∀ g1, findGroup acc k = some g1 → updF g1 = g1 := by
              intro g1 hfa
              have hg1k : groupKey g1.name = k := findGroup_key hfa
              rw [hupdF]
              dsimp only
              rw [if_neg (by simp [hg1k]; exact hkk)]
            have hb1 : baseCount acc1 k = baseCount acc k := by
              rw [baseCount, baseCount, hfind1 k]
              cases hfa : findGroup acc k with
              | none => simp
              | some g1 => simp [hpres g1 hfa]
            have hb2 : baseTime acc1 k = baseTime acc k := by
              rw [baseTime, baseTime, hfind1 k]
              cases hfa : findGroup acc k with
              | none => simp
              | some g1 => simp [hpres g1 hfa]
            refine ⟨hk, ?_, ?_⟩
            · rw [hcnt, hb1, keyCount_cons_neg rest (fun he => hkk he.symm)]
            · rw [htime, hb2, keySum_cons_neg rest d (fun he => hkk he.symm)]
      · -- the key is new: a fresh group with count 1 is appended
        rw [if_neg hhit] at hacc
        have hacc1 : acc1 = acc ++
            [{ name := s.packagename, count := 1, compileTime := d s }] :=
          (Option.some_inj.mp hacc).symm
        set newg : PackageStats :=
          { name := s.packagename, count := 1, compileTime := d s } with hnewg
        have hnewkey : groupKey newg.name = statKey s := rfl
        have hmiss : findGroup acc (statKey s) = none :=
          Option.not_isSome_iff_eq_none.mp hhit
        have hnotmem : statKey s ∉ groupKeys acc := by
          intro hmem
          obtain ⟨g1, hg1, hg1k⟩ := List.mem_map.mp hmem
          have := List.find?_eq_none.mp hmiss g1 hg1
          simp [hg1k] at this
        have hkeys1 : groupKeys acc1 = groupKeys acc ++ [statKey s] := by
          rw [hacc1, groupKeys, groupKeys, List.map_append]
          rfl
        have hnd1 : (groupKeys acc1).Nodup := by
          rw [hkeys1]
          simp [List.nodup_append, hnd, hnotmem]
        have hfind1pos : findGroup acc1 (statKey s) = some newg := by
          rw [hacc1, findGroup, List.find?_append]
          rw [show List.find? (fun g => groupKey g.name == statKey s) acc = none from hmiss]
          simp [hnewkey]
        have hfind1neg : ∀ k, k ≠ statKey s → findGroup acc1 k = findGroup acc k := by
          intro k hkk
          rw [hacc1, findGroup, List.find?_append]
          have : List.find? (fun g => groupKey g.name == k) [newg] = none := by
            simp [hnewkey]
            exact fun he => hkk he.symm
          rw [this, Option.or_none]
          rfl
        have IH := ih acc1 gs hdrest hnd1 hfold1
        refine ⟨IH.1, ?_, ?_⟩
        · intro k
          rw [IH.2.1 k, hkeys1]
          simp only [List.mem_append, List.mem_singleton, List.map_cons, List.mem_cons]
          tauto
        · intro k g hfg
          obtain ⟨hk, hcnt, htime⟩ := IH.2.2 k g hfg
          by_cases hkk : k = statKey s
          · have hb1 : baseCount acc1 k = 1 := by
              rw [hkk, baseCount, hfind1pos]
            have hb2 : baseTime acc1 k = d s := by
              rw [hkk, baseTime, hfind1pos]
            have hb0 : baseCount acc k = 0 := by
              rw [hkk, baseCount, hmiss]
            have hb0t : baseTime acc k = 0 := by
              rw [hkk, baseTime, hmiss]
            refine ⟨hk, ?_, ?_⟩
            · rw [hcnt, hb1, hb0, keyCount_cons_pos rest hkk.symm]
              omega
            · rw [htime, hb2, hb0t, keySum_cons_pos rest d hkk.symm]
              ring
          · have hb1 : baseCount acc1 k = baseCount acc k := by
              rw [baseCount, baseCount, hfind1neg k hkk]
            have hb2 : baseTime acc1 k = baseTime acc k := by
              rw [baseTime, baseTime, hfind1neg k hkk]
            refine ⟨hk, ?_, ?_⟩
            · rw [hcnt, hb1, keyCount_cons_neg rest (fun he => hkk he.symm)]
            · rw [htime, hb2, keySum_cons_neg rest d (fun he => hkk he.symm)]

theorem updateWidths4 (w0 w1 w2 w3 : Nat) (a b c d : String) :
    updateWidthsGo [w0, w1, w2, w3] 0 [some a, some b, some c, some d] =
      some [max w0 a.length, max w1 b.length, max w2 c.length, max w3 d.length] := by
  by_cases h0 : w0 < a.length <;> by_cases h1 : w1 < b.length <;>
    by_cases h2 : w2 < c.length <;> by_cases h3 : w3 < d.length <;>
    simp [updateWidthsGo, h0, h1, h2, h3] <;> omega

theorem widths_fold (rows : List (List (Option String)))
    (hshape : ∀ r ∈ rows, ∃ a b c d, r = [some a, some b, some c, some d]) :
    ∀ (w0 w1 w2 w3 : Nat),
      List.foldlM (fun w row => updateWidthsGo w 0 row) [w0, w1, w2, w3] rows =
        some [rows.foldl (fun w row => max w (cellStr row 0).length) w0,
              rows.foldl (fun w row => max w (cellStr row 1).length) w1,
              rows.foldl (fun w row => max w (cellStr row 2).length) w2,
              rows.foldl (fun w row => max w (cellStr row 3).length) w3] := by
  induction rows with
  | nil => intro w0 w1 w2 w3; rfl
  | cons r rest ih =>
    intro w0 w1 w2 w3
    have hr := hshape r (List.mem_cons_self r rest)
    have hrest : ∀ x ∈ rest, ∃ a b c d, x = [some a, some b, some c, some d] :=
      fun x hx => hshape x (List.mem_cons_of_mem r hx)
    obtain ⟨a, b, c, d, rfl⟩ := hr
    have hb : ∀ (v : List Nat) (f : List Nat → Option (List Nat)),
        ((some v : Option (List Nat)) >>= f) = f v := fun _ _ => rfl
    rw [List.foldlM_cons, updateWidths4, hb, ih hrest]
    simp [cellStr]

theorem render_mapM (widths : List Nat) (rows : List (List (Option String)))
    (hshape : ∀ r ∈ rows, ∃ a b c d, r = [some a, some b, some c, some d]) :
    rows.mapM (renderRow widths) =
      some (rows.map (fun row => String.intercalate "\t"
        [cellStr row 0 ++ spaces (((widths.get? 0).getD 0) - (cellStr row 0).length),
         spaces (((widths.get? 1).getD 0) - (cellStr row 1).length) ++ cellStr row 1,
         spaces (((widths.get? 2).getD 0) - (cellStr row 2).length) ++ cellStr row 2,
         spaces (((widths.get? 3).getD 0) - (cellStr row 3).length) ++ cellStr row 3])) := by
  induction rows with
  | nil => rfl
  | cons r rest ih =>
    have hr := hshape r (List.mem_cons_self r rest)
    have hrest : ∀ x ∈ rest, ∃ a b c d, x = [some a, some b, some c, some d] :=
      fun x hx => hshape x (List.mem_cons_of_mem r hx)
    obtain ⟨a, b, c, d, rfl⟩ := hr
    rw [List.mapM_cons, ih hrest]
    simp [renderRow, renderCellsGo, cellStr, padEnd, padStart, spaces]

/-- Helper for the style-hook claim: once the memoized `transform` of a
`viteStyle` instance is set, no later event (style block or
`__resolvedConfig` assignment) changes it. -/
theorem styleProcess_transform_frozen (resolveFn : ConfigVal → ConfigVal)
    (config : ConfigVal) :
    ∀ (evs : List StyleEvent) (st : ViteStyleState) (t : ConfigVal),
      st.transform = some t →
      (styleProcess resolveFn config st evs).transform = some t := by
  intro evs
  induction evs with
  | nil => intro st t h; exact h
  | cons ev rest ih =>
    intro st t h
    rw [styleProcess, List.foldl_cons]
    apply ih
    cases ev with
    | setResolvedConfig c => simpa [styleEventStep]
    | block lang =>
      simp only [styleEventStep, viteStyleStep]
      split
      · rw [h]
        exact h
      · exact h

/-! ## Claim theorems -/

/-- C1 (counterexample): at a concrete successful compilation (`compile`
returns code `"A"` and a map whose `toUrl()` is `"B"`), `compileSvelte`
returns the code directly followed by the source-map comment, which differs
from the claimed `code + "\n//# sourceMappingURL=" + url`: no newline is
inserted. -/
theorem compileSvelte_no_newline_counterexample :
    compileSvelte none exampleCompileFn "file.svelte" "x" 0 1 =
      .ok ("A//# sourceMappingURL=B", [⟨"compileStart", 0⟩, ⟨"compiled", 1⟩]) ∧
    "A//# sourceMappingURL=B" ≠ "A" ++ "\n//# sourceMappingURL=" ++ "B" := by
  exact ⟨rfl, by decide⟩

/-- C1 (amended): for every successful compilation, `compileSvelte` returns
the compiled code directly followed by the inline source-map comment, i.e.
`compiled.code ++ "//# sourceMappingURL=" ++ compiled.js.map.toUrl()`, with
no newline in between. -/
theorem compileSvelte_appends_map_comment (pf : Option (String → Except String String))
    (cf : String → Except String Compiled) (fn code : String) (t0 t1 : ℚ)
    (out : String) (ts : List TimeStamp)
    (h : compileSvelte pf cf fn code t0 t1 = .ok (out, ts)) :
    ∃ finalCode compiled, cf finalCode = .ok compiled ∧
      out = compiled.js.code ++ "//# sourceMappingURL=" ++ compiled.js.map.toUrl := by
  rw [compileSvelte.eq_def] at h
  rcases pf with _ | pfn
  · simp only at h
    cases hc : cf code with
    | error e => rw [hc] at h; simp at h
    | ok compiled =>
      rw [hc] at h
      simp only [Except.ok.injEq, Prod.mk.injEq] at h
      exact ⟨code, compiled, hc, h.1.symm⟩
  · simp only at h
    cases hp : pfn code with
    | error e => rw [hp] at h; simp at h
    | ok pcode =>
      rw [hp] at h
      simp only at h
      cases hc : cf pcode with
      | error e => rw [hc] at h; simp at h
      | ok compiled =>
        rw [hc] at h
        simp only [Except.ok.injEq, Prod.mk.injEq] at h
        exact ⟨pcode, compiled, hc, h.1.symm⟩

/-- C1 (witness): the amended theorem applied at the concrete successful
compilation of `compileSvelte_no_newline_counterexample`'s input. -/
theorem compileSvelte_appends_map_comment_witness :
    compileSvelte none exampleCompileFn "file.svelte" "x" 0 1 =
      .ok ("A//# sourceMappingURL=B", [⟨"compileStart", 0⟩, ⟨"compiled", 1⟩]) ∧
    ∃ finalCode compiled, exampleCompileFn finalCode = .ok compiled ∧
      "A//# sourceMappingURL=B" =
        compiled.js.code ++ "//# sourceMappingURL=" ++ compiled.js.map.toUrl :=
  ⟨rfl, compileSvelte_appends_map_comment none exampleCompileFn "file.svelte" "x" 0 1
    "A//# sourceMappingURL=B" [⟨"compileStart", 0⟩, ⟨"compiled", 1⟩] rfl⟩

/-- C2 (counterexample): on three concrete files across two packages the
rendered stats table pads the first (package-name) column by appending
spaces after the name (`padEnd`) and the numeric columns by inserting spaces
before the value (`padStart`); rendering with the claim's padding rule
(padding before the name, after the values) produces a different table. -/
theorem statsTable_padding_counterexample :
    logStatsTable exampleStats =
      some "library\tfiles\t  time\t  avg\nbb     \t    2\t10.0ms\t5.0ms\na      \t    1\t 5.0ms\t5.0ms" ∧
    logStatsTableClaim exampleStats ≠ logStatsTable exampleStats := by
  exact ⟨by decide, by decide⟩

/-- C2 (amended): in the rendered stats table every row's first
(package-name) column is right-padded — spaces are appended after the name —
to the widest cell of that column, the numeric columns are left-padded —
spaces are inserted before the value — to the widest cell of their column,
and the cells of a row are joined by a single tab character. -/
theorem renderStatsTable_padding (gs : List PackageStats)
    (hnames : ∀ g ∈ gs, g.name ≠ none) :
    ∃ w0 w1 w2 w3,
      columnWidths (logStatsLines gs) = some [w0, w1, w2, w3] ∧
      w0 = widestIn (logStatsLines gs) 0 ∧
      w1 = widestIn (logStatsLines gs) 1 ∧
      w2 = widestIn (logStatsLines gs) 2 ∧
      w3 = widestIn (logStatsLines gs) 3 ∧
      renderStatsTable (logStatsLines gs) =
        some (String.intercalate "\n" ((logStatsLines gs).map (fun row =>
          String.intercalate "\t"
            [cellStr row 0 ++ spaces (widestIn (logStatsLines gs) 0 - (cellStr row 0).length),
             spaces (widestIn (logStatsLines gs) 1 - (cellStr row 1).length) ++ cellStr row 1,
             spaces (widestIn (logStatsLines gs) 2 - (cellStr row 2).length) ++ cellStr row 2,
             spaces (widestIn (logStatsLines gs) 3 - (cellStr row 3).length) ++ cellStr row 3]))) := by
  have hshape : ∀ r ∈ logStatsLines gs, ∃ a b c d, r = [some a, some b, some c, some d] := by
    intro r hr
    rcases List.mem_cons.mp hr with h | h
    · exact ⟨"library", "files", "time", "avg", by rw [h]; rfl⟩
    · obtain ⟨g, hg, hrow⟩ := List.mem_map.mp h
      obtain ⟨n, hn⟩ := Option.ne_none_iff_exists'.mp (hnames g hg)
      refine ⟨n, toString g.count, humanDuration g.compileTime,
        humanDuration (g.compileTime / (g.count : ℚ)), ?_⟩
      rw [← hrow, statLine, hn]
  have hw : columnWidths (logStatsLines gs) =
      some [widestIn (logStatsLines gs) 0, widestIn (logStatsLines gs) 1,
        widestIn (logStatsLines gs) 2, widestIn (logStatsLines gs) 3] := by
    rw [show columnWidths (logStatsLines gs) =
      List.foldlM (fun w row => updateWidthsGo w 0 row) [0, 0, 0, 0] (logStatsLines gs)
      from rfl]
    rw [widths_fold (logStatsLines gs) hshape 0 0 0 0]
    rfl
  refine ⟨widestIn (logStatsLines gs) 0, widestIn (logStatsLines gs) 1,
    widestIn (logStatsLines gs) 2, widestIn (logStatsLines gs) 3,
    hw, rfl, rfl, rfl, rfl, ?_⟩
  rw [renderStatsTable.eq_def, hw]
  dsimp only
  rw [render_mapM _ _ hshape]
  rfl

/-- C2 (witness): the amended theorem applied to the two concrete sorted
groups of `exampleStats`, whose names are all present. -/
theorem renderStatsTable_padding_witness :
    (∀ g ∈ exampleGroupsSorted, g.name ≠ none) ∧
    ∃ w0 w1 w2 w3,
      columnWidths (logStatsLines exampleGroupsSorted) = some [w0, w1, w2, w3] ∧
      w0 = widestIn (logStatsLines exampleGroupsSorted) 0 ∧
      w1 = widestIn (logStatsLines exampleGroupsSorted) 1 ∧
      w2 = widestIn (logStatsLines exampleGroupsSorted) 2 ∧
      w3 = widestIn (logStatsLines exampleGroupsSorted) 3 ∧
      renderStatsTable (logStatsLines exampleGroupsSorted) =
        some (String.intercalate "\n" ((logStatsLines exampleGroupsSorted).map (fun row =>
          String.intercalate "\t"
            [cellStr row 0 ++
              spaces (widestIn (logStatsLines exampleGroupsSorted) 0 - (cellStr row 0).length),
             spaces (widestIn (logStatsLines exampleGroupsSorted) 1 - (cellStr row 1).length) ++
               cellStr row 1,
             spaces (widestIn (logStatsLines exampleGroupsSorted) 2 - (cellStr row 2).length) ++
               cellStr row 2,
             spaces (widestIn (logStatsLines exampleGroupsSorted) 3 - (cellStr row 3).length) ++
               cellStr row 3]))) :=
  ⟨by decide, renderStatsTable_padding exampleGroupsSorted (by decide)⟩

/-- C3: a file whose nearest-manifest lookup misses is indeed left
ungrouped (`packagename` stays unset), but the report does not then succeed
with an "unknown" bucket: grouping puts the stat under the JS string key
`"undefined"` with an `undefined` group name, and rendering throws while
reading `.length` of that name, so the whole `logStats` call fails (`none`). -/
theorem manifest_miss_crashes_report :
    (logStatsResolve missPkgLookup [statMiss]).stats =
      [{ filename := "/x/a.svelte", packagename := none,
         timestamps := [⟨"compileStart", 0⟩, ⟨"compiled", 5⟩] }] ∧
    fullLogStats missPkgLookup [statMiss] = none := by
  exact ⟨by decide, by decide⟩

/-- C4 (counterexample): two concrete files under the same package directory
`/p/` (each discovered by the lookup) still incur two
`findClosestPkgJsonPath` lookups — the cache entry is even pushed twice —
because under the `Promise.all` interleaving both cache probes run before
either lookup resolves; this refutes "at most one lookup per
already-discovered prefix". -/
theorem package_lookup_counterexample :
    statA.filename = "/p/" ++ "a.svelte" ∧
    statB1.filename = "/p/" ++ "b.svelte" ∧
    (logStatsResolve examplePkgLookup [statA, statB1]).packages =
      [⟨"p", "/p/"⟩, ⟨"p", "/p/"⟩] ∧
    ¬((logStatsResolve examplePkgLookup [statA, statB1]).lookupCount ≤ 1) := by
  exact ⟨by decide, by decide, by decide, by decide⟩

/-- C4 (amended): within one `logStats` call every stat performs its own
manifest lookup: the cache probes all run against the initially empty
`packages` array before any lookup resolves, so the number of
`findClosestPkgJsonPath` calls equals the number of stats, whatever the
lookup returns. -/
theorem resolve_lookup_per_file (findPkg : String → Option PkgEntry)
    (stats : List FileStat) :
    (logStatsResolve findPkg stats).lookupCount = stats.length := by
  have go : ∀ (l : List FileStat) (acc : ResolveOutcome),
      (List.foldl (resolveStep findPkg) acc
        (l.map (fun s => (s, (none : Option PkgEntry))))).lookupCount =
        acc.lookupCount + l.length := by
    intro l
    induction l with
    | nil => intro acc; simp
    | cons x xs ih =>
      intro acc
      rw [List.map_cons, List.foldl_cons, ih]
      cases hf : findPkg x.filename <;> simp [resolveStep, hf] <;> omega
  rw [logStatsResolve, resolveStatsRun]
  have hchecked : (stats.map (fun stat =>
      (stat, List.find? (fun p => stat.filename.startsWith p.path) ([] : List PkgEntry)))) =
      stats.map (fun s => (s, (none : Option PkgEntry))) := by
    simp
  simp only [hchecked]
  rw [go stats]
  simp

/-- C4 (witness): the amended theorem at the three concrete example stats. -/
theorem resolve_lookup_per_file_witness :
    (logStatsResolve examplePkgLookup exampleStats).lookupCount = exampleStats.length :=
  resolve_lookup_per_file examplePkgLookup exampleStats

/-- C5: when the compile call throws, `onFileLoad` returns the
`toESBuildError`-formatted error instead of code and the shared `stats` list
is returned unchanged: no entry is pushed for that file. -/
theorem onFileLoad_error_result {ε : Type} (toErr : String → ε)
    (pf : Option (String → Except String String))
    (cf : String → Except String Compiled) (fn code : String) (t0 t1 : ℚ)
    (e : String) (stats : List FileStat)
    (h : compileSvelte pf cf fn code t0 t1 = .error e) :
    onFileLoad toErr fn (compileSvelte pf cf fn code t0 t1) stats =
      (.error (toErr e), stats) := by
  rw [h]
  rfl

/-- C5 (witness): the theorem applied to a concrete compile call that throws
`"boom"`, with a nonempty prior stats list, which is returned unchanged. -/
theorem onFileLoad_error_result_witness :
    compileSvelte none throwingCompileFn "file.svelte" "x" 0 1 = .error "boom" ∧
    onFileLoad (fun e => e) "file.svelte"
        (compileSvelte none throwingCompileFn "file.svelte" "x" 0 1) [statA] =
      (.error "boom", [statA]) :=
  ⟨rfl, onFileLoad_error_result (fun e => e) none throwingCompileFn
    "file.svelte" "x" 0 1 "boom" [statA] rfl⟩

/-- C6: membership of the block's language tag in the declared supported set
fully determines the outcome of both hooks: the script hook returns a result
exactly when the tag is in `supportedScriptLangs`, and the style hook
exactly when it is in `supportedStyleLangs` (an absent tag is in neither, so
it yields no transformation). -/
theorem preprocess_lang_membership
    (tf : String → String → TransformResult) (resolveFn : ConfigVal → ConfigVal)
    (config : ConfigVal) (st : ViteStyleState) (block : PreprocessBlock)
    (lang : Option String) :
    ((viteScriptHook tf block).isSome = langIncludes supportedScriptLangs block.lang) ∧
    (((viteStyleStep resolveFn config st lang).1).isSome =
      langIncludes supportedStyleLangs lang) := by
  constructor
  · rw [viteScriptHook]
    split
    next hc => simp [hc]
    next hc => simp [Bool.not_eq_true] at hc; simp [hc]
  · rw [viteStyleStep]
    split
    next hc =>
      cases htr : st.transform <;> simp [htr, hc]
    next hc => simp [Bool.not_eq_true] at hc; simp [hc]

/-- C6 (witness): the theorem at a concrete supported script block and a
concrete unsupported style tag. -/
theorem preprocess_lang_membership_witness :
    ((viteScriptHook (fun code _ => ⟨code, none⟩)
        ⟨some "ts", "let x", "f.svelte"⟩).isSome =
      langIncludes supportedScriptLangs (some "ts")) ∧
    (((viteStyleStep (fun c => c) ⟨false, 0⟩ initViteStyleState (some "json")).1).isSome =
      langIncludes supportedStyleLangs (some "json")) :=
  preprocess_lang_membership (fun code _ => ⟨code, none⟩) (fun c => c) ⟨false, 0⟩
    initViteStyleState ⟨some "ts", "let x", "f.svelte"⟩ (some "json")

/-- C7: a successful grouping pass groups the stats by resolved package
name: each group's `count` is the number of stats with that key and its
`compileTime` the exact sum of their `duration(timestamps, 'compiled')`
values; the group list has one entry per distinct key; the sort is
descending by file count (and is a permutation of the groups); the rendered
`statLines` are the groups plus one header row; and each group's row shows
`count`, `time` and `avg = compileTime / count`. -/
theorem logStats_grouping (stats : List FileStat) (d : FileStat → ℚ)
    (gs : List PackageStats)
    (hd : ∀ s ∈ stats, duration s.timestamps "compiled" none = some (d s))
    (hgs : groupStats stats = some gs) :
    (∀ g ∈ gs, g.count = keyCount stats (groupKey g.name) ∧
      g.compileTime = keySum stats d (groupKey g.name)) ∧
    gs.length = (stats.map statKey).dedup.length ∧
    List.Sorted countGe (sortGroups gs) ∧
    List.Perm (sortGroups gs) gs ∧
    (logStatsLines (sortGroups gs)).length = gs.length + 1 ∧
    (∀ g ∈ gs, statLine g = [g.name, some (toString g.count),
      some (humanDuration g.compileTime),
      some (humanDuration (g.compileTime / (g.count : ℚ)))]) := by
  have props := groupStats_fold_props d stats [] gs hd (by simp [groupKeys]) hgs
  have hself := findGroup_self gs props.1
  refine ⟨?_, ?_, ?_, ?_, ?_, ?_⟩
  · intro g hg
    obtain ⟨_, hcnt, htime⟩ := props.2.2 (groupKey g.name) g (hself g hg)
    constructor
    · rw [hcnt]; simp [baseCount, findGroup]
    · rw [htime]; simp [baseTime, findGroup]
  · have hmem : ∀ k, k ∈ groupKeys gs ↔ k ∈ stats.map statKey := by
      intro k
      rw [props.2.1 k]
      simp [groupKeys]
    have h1 : gs.length = (groupKeys gs).length := by
      simp [groupKeys]
    have h2 : (groupKeys gs).toFinset = ((stats.map statKey).dedup).toFinset := by
      ext k
      simp only [List.mem_toFinset, List.mem_dedup]
      exact hmem k
    rw [h1, ← List.toFinset_card_of_nodup props.1, h2,
      List.toFinset_card_of_nodup (List.nodup_dedup _)]
  · exact List.sorted_insertionSort countGe gs
  · exact List.perm_insertionSort countGe gs
  · simp [logStatsLines, sortGroups, List.length_insertionSort]
  · intro g _
    rfl

/-- C7 (witness): the theorem applied to the three concrete example stats
across two packages, whose grouping yields exactly the two groups of
`exampleGroups`. -/
theorem logStats_grouping_witness :
    (∀ s ∈ exampleStats, duration s.timestamps "compiled" none = some (exampleDur s)) ∧
    groupStats exampleStats = some exampleGroups ∧
    ((∀ g ∈ exampleGroups, g.count = keyCount exampleStats (groupKey g.name) ∧
        g.compileTime = keySum exampleStats exampleDur (groupKey g.name)) ∧
      exampleGroups.length = (exampleStats.map statKey).dedup.length ∧
      List.Sorted countGe (sortGroups exampleGroups) ∧
      List.Perm (sortGroups exampleGroups) exampleGroups ∧
      (logStatsLines (sortGroups exampleGroups)).length = exampleGroups.length + 1 ∧
      (∀ g ∈ exampleGroups, statLine g = [g.name, some (toString g.count),
        some (humanDuration g.compileTime),
        some (humanDuration (g.compileTime / (g.count : ℚ)))])) :=
  ⟨by decide, by decide,
    logStats_grouping exampleStats exampleDur exampleGroups (by decide) (by decide)⟩

/-- C8: every `FileStat` that a successful load appends to `stats` carries
the timestamp sequence `[compileStart, compiled]` recorded by
`compileSvelte` — `compileStart` immediately followed by `compiled` — and
`duration(timestamps, 'compiled')` on that sequence indexes only valid
positions, returning `some (t1 - t0)` rather than the out-of-bounds throw
(`none`). -/
theorem compileSvelte_timestamps (pf : Option (String → Except String String))
    (cf : String → Except String Compiled) (fn code : String) (t0 t1 : ℚ)
    (out : String) (ts : List TimeStamp) (stats : List FileStat)
    (toErr : String → String)
    (h : compileSvelte pf cf fn code t0 t1 = .ok (out, ts)) :
    ts = [⟨"compileStart", t0⟩, ⟨"compiled", t1⟩] ∧
    duration ts "compiled" none = some (t1 - t0) ∧
    (∀ s ∈ (onFileLoad toErr fn (compileSvelte pf cf fn code t0 t1) stats).2,
      s ∈ stats ∨
        (s.timestamps = [⟨"compileStart", t0⟩, ⟨"compiled", t1⟩] ∧
          duration s.timestamps "compiled" none = some (t1 - t0))) := by
  have hts : ts = [⟨"compileStart", t0⟩, ⟨"compiled", t1⟩] := by
    rw [compileSvelte.eq_def] at h
    rcases pf with _ | pfn
    · simp only at h
      cases hc : cf code with
      | error e => rw [hc] at h; simp at h
      | ok compiled =>
        rw [hc] at h
        simp only [Except.ok.injEq, Prod.mk.injEq] at h
        exact h.2.symm
    · simp only at h
      cases hp : pfn code with
      | error e => rw [hp] at h; simp at h
      | ok pcode =>
        rw [hp] at h
        simp only at h
        cases hc : cf pcode with
        | error e => rw [hc] at h; simp at h
        | ok compiled =>
          rw [hc] at h
          simp only [Except.ok.injEq, Prod.mk.injEq] at h
          exact h.2.symm
  refine ⟨hts, by rw [hts]; rfl, ?_⟩
  intro s hs
  rw [h] at hs
  simp only [onFileLoad, List.mem_append, List.mem_singleton] at hs
  rcases hs with hs | hs
  · exact Or.inl hs
  · refine Or.inr ?_
    rw [hs]
    exact ⟨hts, by rw [hts]; rfl⟩

/-- C8 (witness): the theorem applied to a concrete successful load starting
from an empty stats list. -/
theorem compileSvelte_timestamps_witness :
    compileSvelte none exampleCompileFn "file.svelte" "x" 0 1 =
      .ok ("A//# sourceMappingURL=B", [⟨"compileStart", 0⟩, ⟨"compiled", 1⟩]) ∧
    (([⟨"compileStart", 0⟩, ⟨"compiled", 1⟩] : List TimeStamp) =
        [⟨"compileStart", 0⟩, ⟨"compiled", 1⟩] ∧
      duration [⟨"compileStart", 0⟩, ⟨"compiled", 1⟩] "compiled" none = some (1 - 0) ∧
      (∀ s ∈ (onFileLoad (fun e => e) "file.svelte"
          (compileSvelte none exampleCompileFn "file.svelte" "x" 0 1) []).2,
        s ∈ ([] : List FileStat) ∨
          (s.timestamps = [⟨"compileStart", 0⟩, ⟨"compiled", 1⟩] ∧
            duration s.timestamps "compiled" none = some (1 - 0)))) :=
  ⟨rfl, compileSvelte_timestamps none exampleCompileFn "file.svelte" "x" 0 1
    "A//# sourceMappingURL=B" [⟨"compileStart", 0⟩, ⟨"compiled", 1⟩] [] (fun e => e) rfl⟩

/-- C9: a progress line is emitted exactly when the call is the terminal
"done" call, or a prior log exists (`lastProgressLog ≠ 0`; every recorded
log time in a pass is positive) and more than 200ms elapsed since it, or no
log was emitted yet (`lastProgressLog = 0`) and more than 2000ms elapsed
since pass start. -/
theorem logProgress_condition (done : Bool) (now bundleStart lastProgressLog : ℚ) :
    shouldLogProgress done now bundleStart lastProgressLog = true ↔
      (done = true ∨
        (lastProgressLog ≠ 0 ∧ (200 : ℚ) < now - lastProgressLog) ∨
        (lastProgressLog = 0 ∧ (2000 : ℚ) < now - bundleStart)) := by
  by_cases hz : lastProgressLog = 0 <;>
    cases done <;>
    simp [shouldLogProgress, hz, progressDelay, progressThrottle]

/-- C9 (witness): the condition at a concrete throttled call: 250ms after
the previous log (at 50ms), a non-done call logs. -/
theorem logProgress_condition_witness :
    shouldLogProgress false 300 0 50 = true ↔
      ((false = true) ∨
        ((50 : ℚ) ≠ 0 ∧ (200 : ℚ) < 300 - 50) ∨
        ((50 : ℚ) = 0 ∧ (2000 : ℚ) < 300 - 0)) :=
  logProgress_condition false 300 0 50

/-- C10: the CSS transform of a `viteStyle` instance is resolved at most
once: `__resolvedConfig` starts as `null`; the first supported style block
fixes the transform, binding it to the injected `__resolvedConfig` when set
at that moment, else to the constructor config directly when it is
structurally resolved (`inlineConfig` present), else to
`resolveConfig(config)`; any block arriving with the transform already
memoized reuses it without touching the state; and after the transform is
set no later event — including `__resolvedConfig` assignments — changes it. -/
theorem viteStyle_memoized (resolveFn : ConfigVal → ConfigVal)
    (config t : ConfigVal) (st : ViteStyleState) (evs : List StyleEvent)
    (lang : Option String)
    (hsup : langIncludes supportedStyleLangs lang = true) :
    initViteStyleState.resolvedConfigField = none ∧
    (st.transform = none →
      viteStyleStep resolveFn config st lang =
        (some (chooseResolvedConfig resolveFn st.resolvedConfigField config),
          { st with transform := some (chooseResolvedConfig resolveFn st.resolvedConfigField config) }) ∧
      chooseResolvedConfig resolveFn st.resolvedConfigField config =
        (match st.resolvedConfigField with
         | some rc => rc
         | none => if isResolvedConfig config then config else resolveFn config)) ∧
    (st.transform = some t →
      viteStyleStep resolveFn config st lang = (some t, st)) ∧
    (st.transform = some t →
      (styleProcess resolveFn config st evs).transform = some t) := by
  refine ⟨rfl, ?_, ?_, ?_⟩
  · intro hnone
    constructor
    · rw [viteStyleStep, if_pos hsup, hnone]
    · rfl
  · intro hsome
    rw [viteStyleStep, if_pos hsup, hsome]
  · intro hsome
    exact styleProcess_transform_frozen resolveFn config evs st t hsome

/-- C10 (witness): the theorem at a concrete supported tag (`scss`), a
state whose transform is already memoized, and a later event sequence that
reassigns `__resolvedConfig`. -/
theorem viteStyle_memoized_witness :
    langIncludes supportedStyleLangs (some "scss") = true ∧
    (initViteStyleState.resolvedConfigField = none ∧
      (({ transform := some ⟨true, 7⟩, resolvedConfigField := none } : ViteStyleState).transform = none →
        viteStyleStep (fun c => c) ⟨false, 0⟩
            { transform := some ⟨true, 7⟩, resolvedConfigField := none } (some "scss") =
          (some (chooseResolvedConfig (fun c => c) none ⟨false, 0⟩),
            { transform := some (chooseResolvedConfig (fun c => c) none ⟨false, 0⟩),
              resolvedConfigField := none }) ∧
        chooseResolvedConfig (fun c => c) none ⟨false, 0⟩ =
          (if isResolvedConfig ⟨false, 0⟩ then (⟨false, 0⟩ : ConfigVal)
           else (⟨false, 0⟩ : ConfigVal))) ∧
      (({ transform := some ⟨true, 7⟩, resolvedConfigField := none } : ViteStyleState).transform = some ⟨true, 7⟩ →
        viteStyleStep (fun c => c) ⟨false, 0⟩
            { transform := some ⟨true, 7⟩, resolvedConfigField := none } (some "scss") =
          (some ⟨true, 7⟩, { transform := some ⟨true, 7⟩, resolvedConfigField := none })) ∧
      (({ transform := some ⟨true, 7⟩, resolvedConfigField := none } : ViteStyleState).transform = some ⟨true, 7⟩ →
        (styleProcess (fun c => c) ⟨false, 0⟩
            { transform := some ⟨true, 7⟩, resolvedConfigField := none }
            [StyleEvent.setResolvedConfig ⟨true, 9⟩,
              StyleEvent.block (some "css")]).transform = some ⟨true, 7⟩)) :=
  ⟨by decide, viteStyle_memoized (fun c => c) ⟨false, 0⟩ ⟨true, 7⟩
    { transform := some ⟨true, 7⟩, resolvedConfigField := none }
    [StyleEvent.setResolvedConfig ⟨true, 9⟩, StyleEvent.block (some "css")]
    (some "scss") (by decide)⟩
